import Mathlib

/-!
Verification of the dialogue-block extractor (src/extractor.py).

The Python source is shallowly embedded below. Strings are modelled through
their character lists; Python string primitives (strip, lstrip with a
character set, startswith, splitlines) are given explicit executable
definitions matching Python's documented semantics. The two regular
expressions of the source (the header matcher built by make_header_re and
the redundant-id marker search) are modelled by executable matchers that
follow the regex engine's anchored, greedy, backtracking behaviour for
those concrete patterns.
-/

/-- Python `str.isspace` / regex whitespace class, by code point. -/
def pyIsSpace (c : Char) : Bool :=
  ([9, 10, 11, 12, 13, 28, 29, 30, 31, 32, 0x85, 0xA0, 0x1680,
    0x2000, 0x2001, 0x2002, 0x2003, 0x2004, 0x2005, 0x2006, 0x2007,
    0x2008, 0x2009, 0x200A, 0x2028, 0x2029, 0x202F, 0x205F, 0x3000] : List Nat).contains c.toNat

/-- The line boundaries recognised by Python `str.splitlines`. -/
def isLineBreak (c : Char) : Bool :=
  ([10, 11, 12, 13, 28, 29, 30, 0x85, 0x2028, 0x2029] : List Nat).contains c.toNat

/-- ASCII lower-casing, modelling case-insensitive regex comparison. -/
def toLowerCh (c : Char) : Char :=
  if 'A' ≤ c ∧ c ≤ 'Z' then Char.ofNat (c.toNat + 32) else c

def isAsciiDigit (c : Char) : Bool := '0' ≤ c && c ≤ '9'

def isAsciiAlpha (c : Char) : Bool := ('a' ≤ c && c ≤ 'z') || ('A' ≤ c && c ≤ 'Z')

/-- Regex word-class character, for the `\b` boundary of the header pattern. -/
def isWordChar (c : Char) : Bool := isAsciiDigit c || isAsciiAlpha c || c == '_'

/-- The character set of Python's `lstrip('; ')` on line 37 of the source. -/
def inSemiSp (c : Char) : Bool := c == ';' || c == ' '

/-- `begWith p l` holds when `l` begins with `p` (character-exact). -/
def begWith : List Char → List Char → Bool
  | [], _ => true
  | _ :: _, [] => false
  | a :: as, b :: bs => a == b && begWith as bs

/-- Python `s.startswith(pre)`. -/
def pyStartsWith (s pre : String) : Bool := begWith pre.data s.data

/-- Python `str.lstrip()` (no argument): drop leading whitespace. -/
def pyLstripL (l : List Char) : List Char := l.dropWhile pyIsSpace

/-- Python `str.rstrip()` (no argument): drop trailing whitespace. -/
def pyRstripL (l : List Char) : List Char := (l.reverse.dropWhile pyIsSpace).reverse

/-- Python `str.strip()` (no argument). -/
def pyStripL (l : List Char) : List Char := pyRstripL (pyLstripL l)

def pyRstrip (s : String) : String := String.mk (pyRstripL s.data)

def pyStrip (s : String) : String := String.mk (pyStripL s.data)

/-- Worker for `str.splitlines`; `acc` holds the current line reversed. -/
def splitlinesGo (acc : List Char) : List Char → List (List Char)
  | [] => if acc.isEmpty then [] else [acc.reverse]
  | '\r' :: '\n' :: rest => acc.reverse :: splitlinesGo [] rest
  | c :: rest =>
    if isLineBreak c then acc.reverse :: splitlinesGo [] rest
    else splitlinesGo (c :: acc) rest

/-- Python `text.splitlines()` (line 22 of the source). -/
def pySplitlines (s : String) : List String :=
  (splitlinesGo [] s.data).map String.mk

/-- Python `'\n'.join(...)`. -/
def joinNL : List String → String
  | [] => ""
  | [x] => x
  | x :: y :: rest => x ++ "\n" ++ joinNL (y :: rest)

/-- A string containing at least one non-whitespace character. -/
def hasNonSpace (s : String) : Bool := s.data.any (fun c => !pyIsSpace c)

/-! ### The header matcher

`make_header_re(name)` builds `^#\s*(?P<id>.+_<name>\d+)\b` with
`re.IGNORECASE`, and the source applies it with `re.match`, i.e. anchored at
the very start of the line.  The model below reproduces the engine's
behaviour on this pattern: greedy `\s*` and `.+` with backtracking, `.`
excluding the newline, `\d+` greedy, and the trailing word boundary. -/

/-- Length of the whitespace run at the head of `l` (how far `\s*` can reach). -/
def wsCount (l : List Char) : Nat := (l.takeWhile pyIsSpace).length

/-- Try `f n, f (n-1), ..., f 0` and return the first `some` — the
backtracking order of a greedy quantifier. -/
def firstSomeDesc {α : Type} (f : Nat → Option α) : Nat → Option α
  | 0 => f 0
  | k + 1 =>
    match f (k + 1) with
    | some v => some v
    | none => firstSomeDesc f k

/-- Attempt the group `(.+_<name>\d+)\b` on `s` with the `.+` part taking
exactly `i` characters; returns the captured group on success. -/
def groupCheck (nm s : List Char) (i : Nat) : Option (List Char) :=
  if 1 ≤ i ∧ i ≤ s.length ∧ (∀ c ∈ s.take i, c ≠ '\n') then
    match s.drop i with
    | '_' :: r1 =>
      if (r1.take nm.length).map toLowerCh = nm.map toLowerCh then
        let r2 := r1.drop nm.length
        let ds := r2.takeWhile isAsciiDigit
        if ds = [] then none
        else
          match r2.drop ds.length with
          | [] => some (s.take (i + 1 + nm.length + ds.length))
          | c :: _ =>
            if isWordChar c then none
            else some (s.take (i + 1 + nm.length + ds.length))
      else none
    | _ => none
  else none

/-- The group `(.+_<name>\d+)\b` at the start of `s`, greedy in `.+`. -/
def tryGroup (nm s : List Char) : Option (List Char) :=
  firstSomeDesc (groupCheck nm s) s.length

/-- `make_header_re(name).match(line)`, returning the captured `id` group:
the line must begin with `#`, then `\s*` (greedy, backtracking), then the
group. -/
def headerMatchL (nm line : List Char) : Option (List Char) :=
  match line with
  | '#' :: rest => firstSomeDesc (fun k => tryGroup nm (rest.drop k)) (wsCount rest)
  | _ => none

/-- String-level header matcher (lines 18-19 and 27 of the source). -/
def headerMatch (name line : String) : Option String :=
  (headerMatchL name.data line.data).map String.mk

/-! ### The redundant-id marker search

Line 39 of the source builds `\|\s*#\s*<re.escape(block_id)>\s*\|` (no
IGNORECASE) and uses `re.search`.  Only the existence of a match matters, so
the model checks every start position and every `\s*` split. -/

/-- Does the marker pattern match starting exactly at `l`? -/
def markerAt (idc l : List Char) : Bool :=
  match l with
  | '|' :: r0 =>
    (List.range (wsCount r0 + 1)).any (fun k1 =>
      match r0.drop k1 with
      | '#' :: r1 =>
        (List.range (wsCount r1 + 1)).any (fun k2 =>
          let r2 := r1.drop k2
          begWith idc r2 &&
            (let r3 := r2.drop idc.length
             (List.range (wsCount r3 + 1)).any (fun k3 =>
               match r3.drop k3 with
               | '|' :: _ => true
               | _ => false)))
      | _ => false)
  | _ => false

/-- `marker_re.search(ln)`: does the marker pattern match anywhere in `ln`? -/
def markerSearchL (idc : List Char) : List Char → Bool
  | [] => false
  | c :: rest => markerAt idc (c :: rest) || markerSearchL idc rest

def markerSearch (bid ln : String) : Bool := markerSearchL bid.data ln.data

/-! ### Block classification and the scan -/

/-- One extracted record (the dict built on lines 42-46 of the source). -/
structure Rec where
  id : String
  orig : String
  trans : String
deriving DecidableEq, Repr

/-- `ln.strip().startswith(';')` — the commentary test of lines 37 and 41. -/
def isCommentLine (ln : String) : Bool := pyStartsWith (pyStrip ln) ";"

/-- `ln.lstrip('; ').rstrip()` — the processing of a commentary line into
its contribution to `orig` (line 37 of the source). -/
def origProcessL (ln : List Char) : List Char :=
  pyRstripL (ln.dropWhile inSemiSp)

def origProcess (ln : String) : String := String.mk (origProcessL ln.data)

/-- Lines 36-46 of the source: classify a block's raw lines and build the
record.  `orig` keeps processed commentary lines that do not match the
redundant-id marker; `trans` keeps right-trimmed non-comment non-blank
lines; both are newline-joined and stripped. -/
def mkRecord (bid : String) (bl : List String) : Rec :=
  let origRaw := (bl.filter isCommentLine).map origProcess
  let origKept := origRaw.filter (fun ln => !markerSearch bid ln)
  let transL := (bl.filter (fun ln => !isCommentLine ln && !(pyStrip ln == ""))).map pyRstrip
  ⟨bid, pyStrip (joinNL origKept), pyStrip (joinNL transL)⟩

/-- The inner while loop (lines 32-35): collect lines until one starts with
`"# "` (or input ends); returns the collected block and the remaining lines. -/
def collectBlock : List String → List String × List String
  | [] => ([], [])
  | l :: rest =>
    if pyStartsWith l "# " then ([], l :: rest)
    else
      let pr := collectBlock rest
      (l :: pr.1, pr.2)

/-- The outer while loop of extract_from_text (lines 26-48): at a header
line, strip the captured id, collect the block and emit a record; otherwise
advance one line. -/
def extractScan (hm : String → Option String) : List String → List Rec
  | [] => []
  | l :: rest =>
    match hm l with
    | some rawId =>
      mkRecord (pyStrip rawId) (collectBlock rest).1 ::
        extractScan hm (collectBlock rest).2
    | none => extractScan hm rest
termination_by ls => ls.length
decreasing_by
  · have hlen : ∀ ls : List String, (collectBlock ls).2.length ≤ ls.length := by
      intro ls
      induction ls with
      | nil => simp [collectBlock]
      | cons x xs ih =>
        by_cases hx : pyStartsWith x "# " = true
        · simp [collectBlock, hx]
        · simp only [collectBlock, Bool.not_eq_true] at hx ⊢
          rw [if_neg (by simp [hx])]
          exact Nat.le_succ_of_le ih
    simpa using Nat.lt_succ_of_le (hlen rest)
  · simp

/-- A single-pass rendering of the same nested while loops, structurally
recursive on the line list (one step per line): `cur` is the open block, if
any, with its id and its collected lines in reverse.  A line starting with
`"# "` closes the open block and is then re-examined by the outer loop, as
in the source; any other line is appended to the open block.  Proved equal
to `extractScan` below; being structural, it also evaluates inside the
kernel. -/
def scanGo (hm : String → Option String) (cur : Option (String × List String)) :
    List String → List Rec
  | [] =>
    match cur with
    | some (bid, acc) => [mkRecord bid acc.reverse]
    | none => []
  | l :: rest =>
    match cur with
    | some (bid, acc) =>
      if pyStartsWith l "# " then
        mkRecord bid acc.reverse ::
          (match hm l with
           | some rawId => scanGo hm (some (pyStrip rawId, [])) rest
           | none => scanGo hm none rest)
      else scanGo hm (some (bid, l :: acc)) rest
    | none =>
      match hm l with
      | some rawId => scanGo hm (some (pyStrip rawId, [])) rest
      | none => scanGo hm none rest

/-- `extract_from_text(text, name)` (lines 21-49 of the source). -/
def extract_from_text (text : String) (name : String) : List Rec :=
  extractScan (headerMatch name) (pySplitlines text)

/-- The keep-filter of walk_and_extract (line 67): Python truthiness of
`item['trans'] or item['orig']`. -/
def keepItem (it : Rec) : Bool := !(it.trans == "") || !(it.orig == "")

/-- Models walk_and_extract (lines 51-69): the directory walk, file reads
and decoding are I/O and are represented by the list of decoded texts of the
scanned files; for each text the source runs extract_from_text and appends
only the items passing the keep-filter. -/
def walk_and_extract (texts : List String) (name : String) : List Rec :=
  texts.flatMap (fun t => (extract_from_text t name).filter keepItem)

/-! ### The encoding detector

`read_text_try` reads a file's bytes and tries `b.decode(e)` for each `e` in
`ENCODINGS`, returning the first success, or `(None, None)` if every
candidate fails.  Bytes are modelled as natural numbers below 256 and
decoded text as a list of code points.  The codecs themselves are Python
library routines; they are modelled byte-exactly for utf-8, utf-8-sig,
utf-16le/be and latin-1.  For utf-16 without a byte-order mark Python uses
the platform byte order, modelled here as little-endian; for gbk the
two-byte structure (lead 0x81-0xFE, trail 0x40-0xFE except 0x7F) is modelled
with the assignment table abstracted to all structurally valid pairs. -/

/-- A UTF-8 continuation byte. -/
def isCont (b : Nat) : Bool := 0x80 ≤ b && b ≤ 0xBF

/-- Strict UTF-8 decoding: rejects truncated, overlong and surrogate forms. -/
def utf8Decode : List Nat → Option (List Nat)
  | [] => some []
  | b :: rest =>
    if b < 0x80 then
      match utf8Decode rest with
      | some t => some (b :: t)
      | none => none
    else if 0xC2 ≤ b && b ≤ 0xDF then
      match rest with
      | c1 :: r =>
        if isCont c1 then
          match utf8Decode r with
          | some t => some (((b - 0xC0) * 0x40 + (c1 - 0x80)) :: t)
          | none => none
        else none
      | [] => none
    else if 0xE0 ≤ b && b ≤ 0xEF then
      match rest with
      | c1 :: c2 :: r =>
        let ok1 :=
          if b = 0xE0 then 0xA0 ≤ c1 && c1 ≤ 0xBF
          else if b = 0xED then 0x80 ≤ c1 && c1 ≤ 0x9F
          else isCont c1
        if ok1 && isCont c2 then
          match utf8Decode r with
          | some t =>
            some (((b - 0xE0) * 0x1000 + (c1 - 0x80) * 0x40 + (c2 - 0x80)) :: t)
          | none => none
        else none
      | _ => none
    else if 0xF0 ≤ b && b ≤ 0xF4 then
      match rest with
      | c1 :: c2 :: c3 :: r =>
        let ok1 :=
          if b = 0xF0 then 0x90 ≤ c1 && c1 ≤ 0xBF
          else if b = 0xF4 then 0x80 ≤ c1 && c1 ≤ 0x8F
          else isCont c1
        if ok1 && isCont c2 && isCont c3 then
          match utf8Decode r with
          | some t =>
            some (((b - 0xF0) * 0x40000 + (c1 - 0x80) * 0x1000 +
              (c2 - 0x80) * 0x40 + (c3 - 0x80)) :: t)
          | none => none
        else none
      | _ => none
    else none

/-- utf-8-sig: strip a leading UTF-8 byte-order mark if present, then utf-8. -/
def utf8sigDecode (b : List Nat) : Option (List Nat) :=
  match b with
  | 0xEF :: 0xBB :: 0xBF :: rest => utf8Decode rest
  | _ => utf8Decode b

/-- Strict UTF-16 little-endian: code units in byte pairs, surrogate pairs
combined, truncated input and unpaired surrogates rejected. -/
def utf16leDecode : List Nat → Option (List Nat)
  | [] => some []
  | [_] => none
  | lo :: hi :: rest =>
    let u := lo + 256 * hi
    if 0xD800 ≤ u && u ≤ 0xDBFF then
      match rest with
      | lo2 :: hi2 :: rest2 =>
        let v := lo2 + 256 * hi2
        if 0xDC00 ≤ v && v ≤ 0xDFFF then
          match utf16leDecode rest2 with
          | some t => some ((0x10000 + (u - 0xD800) * 0x400 + (v - 0xDC00)) :: t)
          | none => none
        else none
      | _ => none
    else if 0xDC00 ≤ u && u ≤ 0xDFFF then none
    else
      match utf16leDecode rest with
      | some t => some (u :: t)
      | none => none

/-- Strict UTF-16 big-endian. -/
def utf16beDecode : List Nat → Option (List Nat)
  | [] => some []
  | [_] => none
  | hi :: lo :: rest =>
    let u := lo + 256 * hi
    if 0xD800 ≤ u && u ≤ 0xDBFF then
      match rest with
      | hi2 :: lo2 :: rest2 =>
        let v := lo2 + 256 * hi2
        if 0xDC00 ≤ v && v ≤ 0xDFFF then
          match utf16beDecode rest2 with
          | some t => some ((0x10000 + (u - 0xD800) * 0x400 + (v - 0xDC00)) :: t)
          | none => none
        else none
      | _ => none
    else if 0xDC00 ≤ u && u ≤ 0xDFFF then none
    else
      match utf16beDecode rest with
      | some t => some (u :: t)
      | none => none

/-- Python `utf-16`: honour a byte-order mark, else platform order
(modelled as little-endian). -/
def utf16Decode (b : List Nat) : Option (List Nat) :=
  match b with
  | 0xFF :: 0xFE :: rest => utf16leDecode rest
  | 0xFE :: 0xFF :: rest => utf16beDecode rest
  | _ => utf16leDecode b

/-- Structural model of the gbk codec: ASCII bytes decode to themselves, a
lead byte in 0x81-0xFE needs a trail byte in 0x40-0xFE other than 0x7F; the
assignment table is abstracted, pairs decoding to an abstract code point. -/
def gbkDecode : List Nat → Option (List Nat)
  | [] => some []
  | b :: rest =>
    if b < 0x80 then
      match gbkDecode rest with
      | some t => some (b :: t)
      | none => none
    else if 0x81 ≤ b && b ≤ 0xFE then
      match rest with
      | t :: r =>
        if (0x40 ≤ t && t ≤ 0xFE) && t ≠ 0x7F then
          match gbkDecode r with
          | some u => some ((0x10000 + b * 0x100 + t) :: u)
          | none => none
        else none
      | [] => none
    else none

/-- latin-1 maps every byte to the code point of the same value; it never
fails. -/
def latin1Decode (b : List Nat) : Option (List Nat) := some b

/-- The candidate list of line 7 of the source, in its fixed order. -/
def ENCODINGS : List (String × (List Nat → Option (List Nat))) :=
  [("utf-8", utf8Decode), ("utf-8-sig", utf8sigDecode), ("utf-16", utf16Decode),
   ("utf-16le", utf16leDecode), ("utf-16be", utf16beDecode), ("gbk", gbkDecode),
   ("latin-1", latin1Decode)]

/-- The decoding loop (lines 11-16): try each candidate in order, return the
first success with the encoding's name. -/
def firstDecode : List (String × (List Nat → Option (List Nat))) → List Nat →
    Option (List Nat × String)
  | [], _ => none
  | p :: rest, b =>
    match p.2 b with
    | some t => some (t, p.1)
    | none => firstDecode rest b

/-- `read_text_try` (lines 9-16): the file read is I/O; its decoding loop
over the candidate list, with `none` as the `(None, None)` sentinel. -/
def read_text_try (b : List Nat) : Option (List Nat × String) :=
  firstDecode ENCODINGS b

/-- The fuel-indexed version of the outer while loop of extract_from_text:
each iteration of the loop consumes one unit of fuel; `none` means the fuel
ran out before the cursor reached the end of the line list. -/
def extractFuel (hm : String → Option String) : Nat → List String → Option (List Rec)
  | _, [] => some []
  | 0, _ :: _ => none
  | fuel + 1, l :: rest =>
    match hm l with
    | some rawId =>
      match extractFuel hm fuel (collectBlock rest).2 with
      | some rs => some (mkRecord (pyStrip rawId) (collectBlock rest).1 :: rs)
      | none => none
    | none => extractFuel hm fuel rest

/-! ## Helper lemmas -/

theorem collectBlock_snd_le (ls : List String) : (collectBlock ls).2.length ≤ ls.length := by
  induction ls with
  | nil => simp [collectBlock]
  | cons x xs ih =>
    by_cases hx : pyStartsWith x "# " = true
    · simp [collectBlock, hx]
    · simp only [collectBlock]
      rw [if_neg (by simp [hx])]
      exact Nat.le_succ_of_le ih

theorem collectBlock_eq (ls : List String) :
    collectBlock ls =
      (ls.takeWhile (fun s => !pyStartsWith s "# "),
       ls.dropWhile (fun s => !pyStartsWith s "# ")) := by
  induction ls with
  | nil => rfl
  | cons l rest ih =>
    by_cases hl : pyStartsWith l "# " = true
    · rw [collectBlock, if_pos hl, List.takeWhile_cons_of_neg (by simp [hl]),
        List.dropWhile_cons_of_neg (by simp [hl])]
    · replace hl : pyStartsWith l "# " = false := by simpa using hl
      rw [collectBlock, if_neg (by simp [hl]), ih,
        List.takeWhile_cons_of_pos (by simp [hl]),
        List.dropWhile_cons_of_pos (by simp [hl])]

theorem dropWhile_head_not {α : Type} (p : α → Bool) (l : List α) (c : α)
    (h : (l.dropWhile p).head? = some c) : p c = false := by
  induction l with
  | nil => simp [List.dropWhile] at h
  | cons a t ih =>
    by_cases ha : p a = true
    · rw [List.dropWhile_cons_of_pos ha] at h
      exact ih h
    · rw [List.dropWhile_cons_of_neg (by simp [ha])] at h
      simp only [List.head?_cons, Option.some.injEq] at h
      subst h
      simpa using ha

theorem firstSomeDesc_isSome {α : Type} (f : Nat → Option α) (n k : Nat) (hk : k ≤ n)
    (h : (f k).isSome) : (firstSomeDesc f n).isSome := by
  induction n with
  | zero =>
    have : k = 0 := Nat.le_zero.mp hk
    subst this
    simpa [firstSomeDesc] using h
  | succ n ih =>
    rw [firstSomeDesc]
    cases hfk : f (n + 1) with
    | some v => simp
    | none =>
      rcases Nat.lt_or_ge k (n + 1) with h1 | h2
      · exact ih (Nat.lt_succ_iff.mp h1)
      · have hkeq : k = n + 1 := Nat.le_antisymm hk h2
        subst hkeq
        rw [hfk] at h
        simp at h

theorem takeWhile_append_all {α : Type} (p : α → Bool) (l₁ l₂ : List α)
    (h : ∀ a ∈ l₁, p a = true) : (l₁ ++ l₂).takeWhile p = l₁ ++ l₂.takeWhile p := by
  induction l₁ with
  | nil => simp
  | cons a t ih =>
    rw [List.cons_append, List.takeWhile_cons_of_pos (h a (by simp)),
      ih (fun a ha => h a (by simp [ha]))]
    rfl

theorem scanGo_spec (hm : String → Option String) :
    ∀ n (ls : List String), ls.length ≤ n →
      (scanGo hm none ls = extractScan hm ls ∧
       ∀ bid acc, scanGo hm (some (bid, acc)) ls =
         mkRecord bid (acc.reverse ++ (collectBlock ls).1) ::
           extractScan hm (collectBlock ls).2) := by
  intro n
  induction n with
  | zero =>
    intro ls hls
    have hnil : ls = [] := List.length_eq_zero.mp (Nat.le_zero.mp hls)
    subst hnil
    exact ⟨by simp [scanGo, extractScan], fun bid acc => by simp [scanGo, extractScan, collectBlock]⟩
  | succ n ih =>
    intro ls hls
    cases ls with
    | nil =>
      exact ⟨by simp [scanGo, extractScan], fun bid acc => by simp [scanGo, extractScan, collectBlock]⟩
    | cons l rest =>
      have hr : rest.length ≤ n := by simpa using hls
      obtain ⟨ihA, ihB⟩ := ih rest hr
      constructor
      · rw [extractScan]
        cases hml : hm l with
        | some rawId =>
          simp only [scanGo, hml]
          rw [ihB (pyStrip rawId) []]
          simp
        | none =>
          simp only [scanGo, hml]
          exact ihA
      · intro bid acc
        by_cases hl : pyStartsWith l "# " = true
        · have hcb : collectBlock (l :: rest) = ([], l :: rest) := by
            rw [collectBlock, if_pos hl]
          simp only [hcb, List.append_nil, scanGo]
          rw [if_pos hl, extractScan]
          cases hml : hm l with
          | some rawId =>
            simp only [hml]
            rw [ihB (pyStrip rawId) []]
            simp
          | none =>
            simp only [hml]
            rw [ihA]
        · have hl' : pyStartsWith l "# " = false := by simpa using hl
          have hcb : collectBlock (l :: rest) =
              (l :: (collectBlock rest).1, (collectBlock rest).2) := by
            rw [collectBlock, if_neg (by simp [hl'])]
          simp only [hcb, scanGo]
          rw [if_neg (by simp [hl']), ihB bid (l :: acc)]
          simp

theorem extractScan_eq_scanGo (hm : String → Option String) (ls : List String) :
    extractScan hm ls = scanGo hm none ls :=
  ((scanGo_spec hm ls.length ls le_rfl).1).symm

theorem extract_eq_scanGo (text name : String) :
    extract_from_text text name = scanGo (headerMatch name) none (pySplitlines text) :=
  extractScan_eq_scanGo (headerMatch name) (pySplitlines text)

/-! ## Claim theorems -/

/-- C1: for name "Sherry" and the five-line input, extraction yields exactly
one record, with id DLG_Sherry001, orig "Hello there, traveler." and trans
"Hallo da, Reisender."; the line "# DLG_Other002" never matches the header
pattern and so is never treated as a block start. -/
theorem extract_scenario_sherry :
    extract_from_text
        "# DLG_Sherry001\n; Hello there, traveler.\nHallo da, Reisender.\n# DLG_Other002\n; not matched"
        "Sherry" =
      [⟨"DLG_Sherry001", "Hello there, traveler.", "Hallo da, Reisender."⟩] ∧
    headerMatch "Sherry" "# DLG_Other002" = none := by
  rw [extract_eq_scanGo]
  decide

/-- C9: a raw line `| Name: |#DLG_Sherry001| |` inside the raw line buffer
of block DLG_Sherry001 is excluded from the record's `orig` field, and the
redundant self-id marker pattern does match that line.  (The line does not
begin with the comment marker `;`, so it is classified as a translation
line; the marker filter itself is applied to commentary lines only.) -/
theorem marker_line_excluded :
    extract_from_text "# DLG_Sherry001\n; hello\n| Name: |#DLG_Sherry001| |\nnach" "Sherry" =
      [⟨"DLG_Sherry001", "hello", "| Name: |#DLG_Sherry001| |\nnach"⟩] ∧
    markerSearch "DLG_Sherry001" "| Name: |#DLG_Sherry001| |" = true := by
  rw [extract_eq_scanGo]
  decide

/-- C5 counterexample: a line with leading whitespace before `#` is NOT
recognised as a header — the source anchors the pattern `^#...` with
`re.match` at position 0 of the line, so `" # DLG_Sherry001"` does not
match and produces no block, contrary to the claim. -/
theorem header_leading_ws_cex :
    headerMatch "Sherry" " # DLG_Sherry001" = none ∧
    extract_from_text " # DLG_Sherry001\n; Hello\nHallo" "Sherry" = [] := by
  rw [extract_eq_scanGo]
  decide

/-- C6 counterexample: `lstrip('; ')` removes ALL leading `;` and space
characters, not exactly one marker: the commentary line `";; text"`
contributes `"text"` (its second `;` is removed) and `"; ; a"` contributes
`"a"`, contrary to the claim. -/
theorem orig_lstrip_cex :
    extract_from_text "# DLG_Sherry001\n;; text\n; ; a" "Sherry" =
      [⟨"DLG_Sherry001", "text\na", ""⟩] := by
  rw [extract_eq_scanGo]
  decide

/-- C7 counterexample: a block whose raw line buffer is the non-empty
all-commentary list `[";"]` produces a record whose `orig` is EMPTY (the
lone commentary line is empty after stripping), contrary to the claim that
such a block has non-empty `orig`. -/
theorem all_comment_empty_cex :
    extract_from_text "# DLG_Sherry001\n;" "Sherry" = [⟨"DLG_Sherry001", "", ""⟩] := by
  rw [extract_eq_scanGo]
  decide

/-- C3: the decoding loop of read_text_try always returns some decoded pair
and never the no-result sentinel: the last candidate, latin-1, accepts
every byte sequence. -/
theorem read_text_try_total (b : List Nat) : (read_text_try b).isSome = true := by
  rw [read_text_try, ENCODINGS]
  simp only [firstDecode, latin1Decode]
  cases utf8Decode b <;> cases utf8sigDecode b <;> cases utf16Decode b <;>
    cases utf16leDecode b <;> cases utf16beDecode b <;> cases gbkDecode b <;> simp

/-- C4: the decoding loop returns the decoded text and the name of the
first encoding in the fixed candidate order under which decoding succeeds:
whenever the candidate list splits as `pre ++ (e, d) :: post` with every
decoder in `pre` failing on `b` and `d` succeeding, the result is `(t, e)`;
in particular, of two succeeding candidates the earlier-listed one wins. -/
theorem read_text_try_first (b t : List Nat) (e : String)
    (d : List Nat → Option (List Nat))
    (pre post : List (String × (List Nat → Option (List Nat))))
    (henc : ENCODINGS = pre ++ (e, d) :: post)
    (hpre : ∀ p ∈ pre, p.2 b = none) (hd : d b = some t) :
    read_text_try b = some (t, e) := by
  rw [read_text_try, henc]
  clear henc
  induction pre with
  | nil => simp [firstDecode, hd]
  | cons q pre ih =>
    have hq : q.2 b = none := hpre q (by simp)
    simp only [List.cons_append, firstDecode, hq]
    exact ih (fun p hp => hpre p (by simp [hp]))

/-- C4 witness: the byte 0xFF is rejected by the first six candidates and
accepted by latin-1, so the detector returns it decoded as latin-1. -/
theorem read_text_try_first_inst : read_text_try [255] = some ([255], "latin-1") :=
  read_text_try_first [255] [255] "latin-1" latin1Decode
    [("utf-8", utf8Decode), ("utf-8-sig", utf8sigDecode), ("utf-16", utf16Decode),
     ("utf-16le", utf16leDecode), ("utf-16be", utf16beDecode), ("gbk", gbkDecode)]
    [] rfl (by decide) rfl

/-- C8: a record is in the aggregated output of walk_and_extract exactly
when it is extracted from one of the scanned texts and has a non-empty
`trans` or a non-empty `orig`; so every aggregated record has one of the
two fields non-empty, empty-empty blocks are discarded, and every block
with at least one non-empty field is retained. -/
theorem walk_and_extract_mem (texts : List String) (name : String) (r : Rec) :
    r ∈ walk_and_extract texts name ↔
      ∃ t ∈ texts, r ∈ extract_from_text t name ∧ (r.trans ≠ "" ∨ r.orig ≠ "") := by
  simp [walk_and_extract, List.mem_flatMap, List.mem_filter, keepItem, ne_eq,
    and_assoc]

/-- C2: a block produced at a matching header consists of exactly the lines
from just after the header up to, but not including, the first subsequent
line beginning with `"# "` (or the end of input): the raw buffer is the
takeWhile of the remaining lines, none of its lines starts with `"# "`, and
the line the scan stops at (if any) starts with `"# "` — it is not required
to match the header pattern itself. -/
theorem block_extent (name l : String) (rest : List String) (rid : String)
    (h : headerMatch name l = some rid) :
    (extractScan (headerMatch name) (l :: rest) =
      mkRecord (pyStrip rid) (rest.takeWhile (fun s => !pyStartsWith s "# ")) ::
        extractScan (headerMatch name)
          (rest.dropWhile (fun s => !pyStartsWith s "# "))) ∧
    (∀ s ∈ rest.takeWhile (fun s => !pyStartsWith s "# "),
      pyStartsWith s "# " = false) ∧
    (∀ s, (rest.dropWhile (fun s => !pyStartsWith s "# ")).head? = some s →
      pyStartsWith s "# " = true) := by
  refine ⟨?_, ?_, ?_⟩
  · rw [extractScan, h, collectBlock_eq]
  · intro s hs
    simpa using List.mem_takeWhile_imp hs
  · intro s hs
    simpa using dropWhile_head_not _ _ _ hs

/-- C2 witness: the block-extent equation at a concrete header and tail. -/
theorem block_extent_inst :
    extractScan (headerMatch "Sherry") ["# DLG_Sherry001", "a", "# end", "b"] =
      mkRecord (pyStrip "DLG_Sherry001")
          (["a", "# end", "b"].takeWhile (fun s => !pyStartsWith s "# ")) ::
        extractScan (headerMatch "Sherry")
          (["a", "# end", "b"].dropWhile (fun s => !pyStartsWith s "# ")) :=
  (block_extent "Sherry" "# DLG_Sherry001" ["a", "# end", "b"] "DLG_Sherry001"
    (by decide)).1

/-- C10: the outer scan of extract_from_text consumes at least one line per
iteration (one on a non-header line, the header plus the collected block at
a header), so a fuel budget equal to the number of lines always suffices:
the fuel-indexed loop never exhausts its fuel and computes the scan. -/
theorem extractFuel_adequate (hm : String → Option String) (fuel : Nat)
    (lines : List String) (h : lines.length ≤ fuel) :
    extractFuel hm fuel lines = some (extractScan hm lines) := by
  induction fuel generalizing lines with
  | zero =>
    have hnil : lines = [] := List.length_eq_zero.mp (Nat.le_zero.mp h)
    subst hnil
    simp [extractFuel, extractScan]
  | succ n ih =>
    cases lines with
    | nil => simp [extractFuel, extractScan]
    | cons l rest =>
      have hr : rest.length ≤ n := by simpa using h
      rw [extractFuel, extractScan]
      cases hml : hm l with
      | some rawId =>
        simp only [hml]
        rw [ih ((collectBlock rest).2) (le_trans (collectBlock_snd_le rest) hr)]
      | none =>
        simp only [hml]
        exact ih rest hr

/-- C10 witness: two units of fuel suffice for a two-line input. -/
theorem extractFuel_adequate_inst :
    extractFuel (headerMatch "Sherry") 2 ["# DLG_Sherry001", "x"] =
      some (extractScan (headerMatch "Sherry") ["# DLG_Sherry001", "x"]) :=
  extractFuel_adequate (headerMatch "Sherry") 2 ["# DLG_Sherry001", "x"] (by decide)

/-- C6 (amended): the contribution of a commentary line to `orig` removes
the line's longest leading run of `;` and space characters (Python
`lstrip` with the character set `"; "`), then right-trims: the line splits
as run ++ tail with every run character in the set, the tail not starting
with a set character, and the processed form equal to the right-trimmed
tail. -/
theorem orig_strip_run (ln : List Char) :
    ∃ p q, ln = p ++ q ∧ (∀ c ∈ p, inSemiSp c = true) ∧
      (∀ c, q.head? = some c → inSemiSp c = false) ∧
      origProcessL ln = pyRstripL q :=
  ⟨ln.takeWhile inSemiSp, ln.dropWhile inSemiSp,
    (List.takeWhile_append_dropWhile inSemiSp ln).symm,
    fun _ hc => List.mem_takeWhile_imp hc,
    fun c hc => dropWhile_head_not inSemiSp ln c hc,
    rfl⟩

theorem any_not_dropWhile {α : Type} (p : α → Bool) (l : List α)
    (h : l.any (fun a => !p a) = true) :
    (l.dropWhile p).any (fun a => !p a) = true := by
  induction l with
  | nil => simp at h
  | cons a t ih =>
    by_cases ha : p a = true
    · rw [List.dropWhile_cons_of_pos ha]
      apply ih
      simpa [ha] using h
    · rw [List.dropWhile_cons_of_neg (by simp [ha])]
      exact h

theorem pyRstripL_any (l : List Char)
    (h : l.any (fun c => !pyIsSpace c) = true) :
    (pyRstripL l).any (fun c => !pyIsSpace c) = true := by
  rw [pyRstripL, List.any_reverse]
  exact any_not_dropWhile pyIsSpace l.reverse (by rwa [List.any_reverse])

theorem rstrip_ne_nil_any (l : List Char) (h : pyRstripL l ≠ []) :
    (pyRstripL l).any (fun c => !pyIsSpace c) = true := by
  rw [pyRstripL] at h ⊢
  cases hd : l.reverse.dropWhile pyIsSpace with
  | nil => rw [hd] at h; simp at h
  | cons a t =>
    have ha : pyIsSpace a = false :=
      dropWhile_head_not pyIsSpace l.reverse a (by rw [hd]; rfl)
    rw [List.any_reverse]
    simp [ha]

theorem rstrip_nil_of_all_space (l : List Char)
    (h : pyRstripL l = []) : ∀ c ∈ l, pyIsSpace c = true := by
  rw [pyRstripL] at h
  have h2 : l.reverse.dropWhile pyIsSpace = [] := by
    have := congrArg List.reverse h
    simpa using this
  intro c hc
  exact List.dropWhile_eq_nil_iff.mp h2 c (by simpa using hc)

theorem pyStripL_ne_nil (l : List Char)
    (h : l.any (fun c => !pyIsSpace c) = true) : pyStripL l ≠ [] := by
  rw [pyStripL]
  intro heq
  have hall := rstrip_nil_of_all_space _ heq
  have h2 : (pyLstripL l).any (fun c => !pyIsSpace c) = true := by
    rw [pyLstripL]
    exact any_not_dropWhile pyIsSpace l h
  obtain ⟨c, hc, hcs⟩ := List.any_eq_true.mp h2
  have := hall c hc
  simp [this] at hcs

theorem joinNL_any (q : Char → Bool) (ls : List String) (s : String)
    (hs : s ∈ ls) (h : s.data.any q = true) : (joinNL ls).data.any q = true := by
  induction ls with
  | nil => cases hs
  | cons x rest ih =>
    cases rest with
    | nil =>
      have : s = x := by simpa using hs
      subst this
      simpa [joinNL] using h
    | cons y t =>
      rw [joinNL, String.data_append, String.data_append, List.any_append,
        List.any_append]
      rcases List.mem_cons.mp hs with rfl | hmem
      · simp [h]
      · simp [ih hmem]

theorem strip_join_ne_empty (ls : List String) (s : String) (hs : s ∈ ls)
    (h : s.data.any (fun c => !pyIsSpace c) = true) :
    pyStrip (joinNL ls) ≠ "" := by
  intro heq
  have hdata : pyStripL (joinNL ls).data = [] := congrArg String.data heq
  exact pyStripL_ne_nil _ (joinNL_any _ ls s hs h) hdata

theorem string_ne_empty_of_data (s : String) (h : s.data ≠ []) : s ≠ "" := by
  intro heq
  exact h (congrArg String.data heq)

/-- C7 (amended): a non-empty all-commentary block yields empty `trans`,
and non-empty `orig` provided some commentary line still has content after
stripping and survives the redundant-id filter; symmetrically, a block with
no commentary lines yields empty `orig`, and non-empty `trans` provided
some line is non-blank.  (Without the provisos the claim fails: buffer
`[";"]` is all-commentary with empty `orig`, and buffer `[""]` has no
commentary and empty `trans`.) -/
theorem mkRecord_partition (bid : String) (bl : List String) :
    ((∀ ln ∈ bl, isCommentLine ln = true) → (mkRecord bid bl).trans = "") ∧
    ((∀ ln ∈ bl, isCommentLine ln = true) →
      (∃ ln ∈ bl, origProcess ln ≠ "" ∧ markerSearch bid (origProcess ln) = false) →
      (mkRecord bid bl).orig ≠ "") ∧
    ((∀ ln ∈ bl, isCommentLine ln = false) → (mkRecord bid bl).orig = "") ∧
    ((∀ ln ∈ bl, isCommentLine ln = false) →
      (∃ ln ∈ bl, pyStrip ln ≠ "") → (mkRecord bid bl).trans ≠ "") := by
  have horig : (mkRecord bid bl).orig =
      pyStrip (joinNL (((bl.filter isCommentLine).map origProcess).filter
        (fun ln => !markerSearch bid ln))) := rfl
  have htrans : (mkRecord bid bl).trans =
      pyStrip (joinNL ((bl.filter
        (fun ln => !isCommentLine ln && !(pyStrip ln == ""))).map pyRstrip)) := rfl
  refine ⟨?_, ?_, ?_, ?_⟩
  · intro hall
    rw [htrans]
    have : bl.filter (fun ln => !isCommentLine ln && !(pyStrip ln == "")) = [] := by
      rw [List.filter_eq_nil_iff]
      intro a ha
      simp [hall a ha]
    rw [this]
    rfl
  · intro hall hex
    obtain ⟨ln, hln, hne, hmk⟩ := hex
    rw [horig]
    have h1 : ln ∈ bl.filter isCommentLine :=
      List.mem_filter.mpr ⟨hln, hall ln hln⟩
    have h2 : origProcess ln ∈ (bl.filter isCommentLine).map origProcess :=
      List.mem_map_of_mem origProcess h1
    have h3 : origProcess ln ∈
        ((bl.filter isCommentLine).map origProcess).filter
          (fun ln => !markerSearch bid ln) :=
      List.mem_filter.mpr ⟨h2, by simp [hmk]⟩
    have hdata : (origProcess ln).data ≠ [] := by
      intro heq
      exact hne (congrArg String.mk heq)
    have hany : (origProcess ln).data.any (fun c => !pyIsSpace c) = true := by
      show (origProcessL ln.data).any (fun c => !pyIsSpace c) = true
      exact rstrip_ne_nil_any _ (by exact hdata)
    exact strip_join_ne_empty _ _ h3 hany
  · intro hall
    rw [horig]
    have : bl.filter isCommentLine = [] := by
      rw [List.filter_eq_nil_iff]
      intro a ha
      simp [hall a ha]
    rw [this]
    rfl
  · intro hall hex
    obtain ⟨ln, hln, hne⟩ := hex
    rw [htrans]
    have hbe : (pyStrip ln == "") = false := by
      cases hb : pyStrip ln == "" with
      | false => rfl
      | true => exact absurd (by simpa using hb) hne
    have h1 : ln ∈ bl.filter (fun ln => !isCommentLine ln && !(pyStrip ln == "")) :=
      List.mem_filter.mpr ⟨hln, by simp [hall ln hln, hbe]⟩
    have h2 : pyRstrip ln ∈
        (bl.filter (fun ln => !isCommentLine ln && !(pyStrip ln == ""))).map pyRstrip :=
      List.mem_map_of_mem pyRstrip h1
    have hstrip : pyStripL ln.data ≠ [] := by
      intro heq
      exact hne (congrArg String.mk heq)
    have hrne : pyRstripL ln.data ≠ [] := by
      intro heq
      apply hstrip
      rw [pyStripL]
      have hall2 := rstrip_nil_of_all_space _ heq
      have hl : pyLstripL ln.data = [] := by
        rw [pyLstripL, List.dropWhile_eq_nil_iff]
        exact hall2
      rw [hl]
      rfl
    have hany : (pyRstrip ln).data.any (fun c => !pyIsSpace c) = true := by
      show (pyRstripL ln.data).any (fun c => !pyIsSpace c) = true
      exact rstrip_ne_nil_any _ hrne
    exact strip_join_ne_empty _ _ h2 hany

/-- C7 witness: the amended theorem applied to the all-commentary buffer
`["; a"]` and the no-commentary buffer `["b"]`. -/
theorem mkRecord_partition_inst :
    (mkRecord "X" ["; a"]).trans = "" ∧ (mkRecord "X" ["; a"]).orig ≠ "" ∧
    (mkRecord "X" ["b"]).orig = "" ∧ (mkRecord "X" ["b"]).trans ≠ "" :=
  ⟨(mkRecord_partition "X" ["; a"]).1 (by decide),
   (mkRecord_partition "X" ["; a"]).2.1 (by decide)
     ⟨"; a", by simp, by decide, by decide⟩,
   (mkRecord_partition "X" ["b"]).2.2.1 (by decide),
   (mkRecord_partition "X" ["b"]).2.2.2 (by decide) ⟨"b", by simp, by decide⟩⟩

theorem groupCheck_at (nm nmv a d post : List Char)
    (hnm : nmv.map toLowerCh = nm.map toLowerCh)
    (ha : a ≠ []) (ha2 : ∀ c ∈ a, c ≠ '\n')
    (hd : d ≠ []) (hd2 : ∀ c ∈ d, isAsciiDigit c = true)
    (hpost : ∀ c, post.head? = some c → isWordChar c = false) :
    (groupCheck nm (a ++ '_' :: (nmv ++ (d ++ post))) a.length).isSome = true := by
  have hlen : nmv.length = nm.length := by
    have := congrArg List.length hnm
    simpa using this
  have hc1 : 1 ≤ a.length := List.length_pos.mpr ha
  have hc2 : a.length ≤ (a ++ '_' :: (nmv ++ (d ++ post))).length := by simp
  have hc3 : ∀ c ∈ (a ++ '_' :: (nmv ++ (d ++ post))).take a.length, c ≠ '\n' := by
    intro c hc
    rw [List.take_left] at hc
    exact ha2 c hc
  have htk : (nmv ++ (d ++ post)).take nm.length = nmv := by
    rw [← hlen, List.take_left]
  have hdr : (nmv ++ (d ++ post)).drop nm.length = d ++ post := by
    rw [← hlen, List.drop_left]
  have hptw : post.takeWhile isAsciiDigit = [] := by
    cases post with
    | nil => rfl
    | cons c t =>
      have hw := hpost c rfl
      have hdg : isAsciiDigit c = false := by
        cases hdg : isAsciiDigit c with
        | false => rfl
        | true => rw [isWordChar] at hw; simp [hdg] at hw
      simp [hdg]
  have hdtw : (d ++ post).takeWhile isAsciiDigit = d := by
    rw [takeWhile_append_all isAsciiDigit d post hd2, hptw, List.append_nil]
  have hdp : (d ++ post).drop ((d ++ post).takeWhile isAsciiDigit).length = post := by
    rw [hdtw, List.drop_left]
  rw [groupCheck, if_pos ⟨hc1, hc2, hc3⟩, List.drop_left]
  simp only [htk, hnm, if_pos, hdr, hdtw, hdp]
  rw [if_neg hd, List.drop_left]
  cases post with
  | nil => simp
  | cons c t =>
    have hw := hpost c rfl
    simp [hw]

/-- C5 (amended): the header matcher recognises every line that begins
directly with `#` (at position 0, with NO leading whitespace allowed),
followed by optional whitespace and a substring of the shape
one-or-more-non-newline-characters, `_`, the target name up to ASCII case,
and one or more digits ending at a word boundary; a line whose first
character is anything other than `#` — in particular whitespace — is never
recognised, because the source anchors the pattern with `re.match` and
`^#`. -/
theorem header_recognizes (nm nmv w a d post : List Char)
    (hnm : nmv.map toLowerCh = nm.map toLowerCh)
    (hw : ∀ c ∈ w, pyIsSpace c = true)
    (ha : a ≠ []) (ha2 : ∀ c ∈ a, c ≠ '\n')
    (hd : d ≠ []) (hd2 : ∀ c ∈ d, isAsciiDigit c = true)
    (hpost : ∀ c, post.head? = some c → isWordChar c = false) :
    (headerMatchL nm ('#' :: (w ++ (a ++ '_' :: (nmv ++ (d ++ post)))))).isSome = true ∧
    (∀ c line, c ≠ '#' → headerMatchL nm (c :: line) = none) := by
  constructor
  · rw [headerMatchL]
    apply firstSomeDesc_isSome _ _ w.length
    · rw [wsCount, takeWhile_append_all pyIsSpace w _ hw, List.length_append]
      exact Nat.le_add_right _ _
    · show (tryGroup nm ((w ++ (a ++ '_' :: (nmv ++ (d ++ post)))).drop w.length)).isSome = true
      rw [List.drop_left, tryGroup]
      apply firstSomeDesc_isSome _ _ a.length
      · simp
      · exact groupCheck_at nm nmv a d post hnm ha ha2 hd hd2 hpost
  · intro c line hc
    unfold headerMatchL
    split
    · next heq => simp_all
    · rfl

/-- C5 amended witness: the matcher applied to the decomposition of
`"# DLG_Sherry001"` (with a lower-cased name occurrence), and the
non-`#`-first-character clause applied to a leading space. -/
theorem header_recognizes_inst :
    (headerMatchL "Sherry".data
      ('#' :: ([' '] ++ ("DLG".data ++ '_' :: ("sherry".data ++ ("001".data ++ []))))) ).isSome
      = true ∧
    headerMatchL "Sherry".data (' ' :: "# DLG_Sherry001".data) = none :=
  ⟨(header_recognizes "Sherry".data "sherry".data [' '] "DLG".data "001".data []
      (by decide) (by decide) (by decide) (by decide) (by decide) (by decide)
      (by intro c h; simp at h)).1,
   (header_recognizes "Sherry".data "sherry".data [' '] "DLG".data "001".data []
      (by decide) (by decide) (by decide) (by decide) (by decide) (by decide)
      (by intro c h; simp at h)).2 ' ' "# DLG_Sherry001".data (by decide)⟩

/-- C6 amended witness: the decomposition applied to the commentary line
`";; text"`. -/
theorem orig_strip_run_inst :
    ∃ p q, ";; text".data = p ++ q ∧ (∀ c ∈ p, inSemiSp c = true) ∧
      (∀ c, q.head? = some c → inSemiSp c = false) ∧
      origProcessL ";; text".data = pyRstripL q :=
  orig_strip_run ";; text".data

/-- C8 witness: a record with empty `trans` but non-empty `orig` is
retained in the aggregated output. -/
theorem walk_and_extract_mem_inst :
    (⟨"DLG_Sherry001", "hello", ""⟩ : Rec) ∈
      walk_and_extract ["# DLG_Sherry001\n; hello"] "Sherry" :=
  (walk_and_extract_mem ["# DLG_Sherry001\n; hello"] "Sherry" _).mpr
    ⟨"# DLG_Sherry001\n; hello", by simp,
     by rw [extract_eq_scanGo]; decide, Or.inr (by decide)⟩
